import Mathlib

/-!
Verification of the media helpers in `lollms/media.py`: `AudioRecorder`,
`WebcamImageSender` and `MusicPlayer`.

Modelling conventions.

Audio chunks are the raw byte strings returned by `stream.read`: iterating a
Python `bytes` object yields unsigned integers in 0..255, so a chunk is a
`List ℕ` of byte values.  `_calculate_rms` computes
`sqrt(sum(b ** 2 for b in data) / len(data))`; since the only consumer
compares this value to a nonnegative threshold and `sqrt` is strictly
monotone on nonnegative reals, we embed the *square* of the rms as an exact
rational (`calculate_rms_sq`), and the comparison `rms < thr` becomes
`rms_sq < thr ^ 2`.  The division by `len(data)` raises `ZeroDivisionError`
in Python when the chunk is empty, so the embedding returns an `Option`.

Wall-clock times (`time.time()`) are modelled as rationals attached to each
loop iteration's input.  The pyaudio stream handle is modelled by a single
`stream_open` flag: `stop_stream`/`close` on an already-closed stream raises,
which the embedding renders as `Except.error`.  Writing the WAV file appends
the concatenation of the buffered chunks to `wav_writes` (one entry per
`wave.open .. writeframes .. close` sequence; the payload of the WAV file is
`b''.join(self.audio_frames)`).
-/

namespace LollmsMedia

/-- Embeds the sum `sum([sample ** 2 for sample in data])` computed inside
`AudioRecorder._calculate_rms`, where `data` ranges over the bytes of the
chunk. -/
def squared_sum (data : List ℕ) : ℕ :=
  (data.map fun sample => sample ^ 2).sum

/-- Embeds `AudioRecorder._calculate_rms` through the square of its result:
`rms = (squared_sum / len(data)) ** 0.5`, so `rms ^ 2 = squared_sum / len`.
The empty chunk makes Python raise `ZeroDivisionError`, rendered as `none`. -/
def calculate_rms_sq (data : List ℕ) : Option ℚ :=
  if data.length = 0 then none
  else some ((squared_sum data : ℚ) / (data.length : ℚ))

/-- State of an `AudioRecorder` instance together with its observable I/O
history.  `stream_open` models the pyaudio stream handle being open;
`wav_writes` records, in order, the payload of every WAV file write performed
by `stop_recording`. -/
structure AudioRecorder where
  silence_threshold : ℚ
  silence_duration : ℚ
  is_recording : Bool
  audio_frames : List (List ℕ)
  last_sound_time : ℚ
  stream_open : Bool
  wav_writes : List (List ℕ)

/-- Embeds `AudioRecorder.stop_recording`: sets `is_recording` to `False`,
stops and closes the stream, then writes the buffered chunks as one WAV file.
`stop_stream()` on an already-closed stream raises, modelled as
`Except.error`. -/
def AudioRecorder.stop_recording (r : AudioRecorder) : Except String AudioRecorder :=
  if r.stream_open then
    Except.ok { r with
      is_recording := false
      stream_open := false
      wav_writes := r.wav_writes ++ [r.audio_frames.flatten] }
  else Except.error "Stream closed"

/-- Embeds one iteration of the body of the `while self.is_recording` loop in
`AudioRecorder._record`: append the chunk read from the stream, compute its
rms, and either self-stop (silence sustained for `silence_duration`), do
nothing, or reset `last_sound_time` to the current time `t`. -/
def AudioRecorder.record_step (r : AudioRecorder) (data : List ℕ) (t : ℚ) :
    Except String AudioRecorder :=
  let r1 : AudioRecorder := { r with audio_frames := r.audio_frames ++ [data] }
  match calculate_rms_sq data with
  | none => Except.error "ZeroDivisionError"
  | some rms_sq =>
    if rms_sq < r1.silence_threshold ^ 2 then
      if r1.silence_duration ≤ t - r1.last_sound_time then
        r1.stop_recording
      else Except.ok r1
    else Except.ok { r1 with last_sound_time := t }

/-- Embeds the `while self.is_recording` loop of `AudioRecorder._record` over
a finite trace of inputs: each element pairs the chunk delivered by
`audio_stream.read` with the value of `time.time()` during that iteration.
The loop exits as soon as `is_recording` is false; an exhausted trace models
the recording still running when observation ends. -/
def AudioRecorder.record_run (r : AudioRecorder) :
    List (List ℕ × ℚ) → Except String AudioRecorder
  | [] => Except.ok r
  | (data, t) :: rest =>
    if r.is_recording then
      match r.record_step data t with
      | Except.ok r1 => r1.record_run rest
      | Except.error e => Except.error e
    else Except.ok r


/-!
`WebcamImageSender` model.  A frame is the raw pixel buffer delivered by
`cap.read()`, a `List ℕ` of pixel values; grayscale conversion
(`cv2.cvtColor(frame, cv2.COLOR_BGR2GRAY)`), JPEG encoding
(`cv2.imencode`) and base64 encoding are library calls, modelled as abstract
functions passed to the loop.  `cv2.absdiff` on `uint8` arrays computes the
elementwise absolute difference `|a - b|`, i.e. `max a b - min a b` on ℕ,
and numpy `.sum()` accumulates in a wide integer type, so the sum is exact.
`emitted` records the payload of every `socketio.emit("image", _)` call in
order. -/

/-- State of a `WebcamImageSender` instance together with the trace of
emitted `"image"` events. -/
structure WebcamImageSender where
  last_image : Option (List ℕ)
  last_change_time : Option ℚ
  emitted : List String

/-- Embeds `WebcamImageSender.image_difference`: returns 0 when no last image
is stored, otherwise the sum of the pixel-wise absolute differences between
`image` and the stored last image. -/
def WebcamImageSender.image_difference (w : WebcamImageSender) (image : List ℕ) : ℕ :=
  match w.last_image with
  | none => 0
  | some last => (List.zipWith (fun a b => max a b - min a b) image last).sum

/-- Embeds one iteration of the `while self.is_running` loop of
`WebcamImageSender.capture_image`: convert the frame read from the camera to
grayscale, replace the stored stable frame when there is none or the
difference exceeds 2, then JPEG-encode and base64-encode the frame and emit
it as an `"image"` event. -/
def capture_step (cvtColor_gray : List ℕ → List ℕ)
    (imencode_jpg : List ℕ → List ℕ) (b64encode_utf8 : List ℕ → String)
    (w : WebcamImageSender) (frame : List ℕ) (t : ℚ) : WebcamImageSender :=
  let gray := cvtColor_gray frame
  let w1 := if w.last_image = none ∨ w.image_difference gray > 2
    then { w with last_image := some gray, last_change_time := some t }
    else w
  { w1 with emitted := w1.emitted ++ [b64encode_utf8 (imencode_jpg frame)] }

/-- Embeds the `while self.is_running` loop of
`WebcamImageSender.capture_image` over the finite trace of frames actually
read while running, each paired with the value of `time.time()` during that
iteration. -/
def capture_run (cvtColor_gray : List ℕ → List ℕ)
    (imencode_jpg : List ℕ → List ℕ) (b64encode_utf8 : List ℕ → String)
    (w : WebcamImageSender) : List (List ℕ × ℚ) → WebcamImageSender
  | [] => w
  | (frame, t) :: rest =>
    capture_run cvtColor_gray imencode_jpg b64encode_utf8
      (capture_step cvtColor_gray imencode_jpg b64encode_utf8 w frame t) rest

/-!
`MusicPlayer` model.  The worker thread's `run` initialises the mixer, loads
the file and starts playback, then, while `pygame.mixer.music.get_busy()`
and `not self.stopped`, issues `pause()` or `unpause()` to the mixer each
iteration according to the `paused` flag.  The controlling thread's
`pause`/`resume`/`stop` calls run concurrently with the worker, so the
execution is modelled as an event trace interleaving external method calls
with the worker's poll iterations.  The mixer is the ordered log of commands
issued to `pygame.mixer.music`; `get_busy()` is an input sampled at each
poll event.  `loop_running` records that the worker's while-loop has not yet
exited: once its condition fails the loop is left for good.
-/

/-- Commands issued to `pygame.mixer.music`, in issue order. -/
inductive MixerCmd where
  | load (path : String)
  | play
  | pause
  | unpause
  | stop
deriving DecidableEq

/-- The mixer, reduced to the log of commands it has received. -/
structure Mixer where
  commands : List MixerCmd
deriving DecidableEq

/-- State of a `MusicPlayer` instance: the attributes set in `__init__`. -/
structure MusicPlayer where
  file_path : String
  paused : Bool
  stopped : Bool
deriving DecidableEq

/-- Embeds `MusicPlayer.pause`: `self.paused = True`, nothing else. -/
def MusicPlayer.pause (p : MusicPlayer) : MusicPlayer :=
  { p with paused := true }

/-- Embeds `MusicPlayer.resume`: `self.paused = False`, nothing else. -/
def MusicPlayer.resume (p : MusicPlayer) : MusicPlayer :=
  { p with paused := false }

/-- Embeds `MusicPlayer.stop`: sets `self.stopped = True` and immediately
issues `pygame.mixer.music.stop()`. -/
def MusicPlayer.stop (p : MusicPlayer) (m : Mixer) : MusicPlayer × Mixer :=
  ({ p with stopped := true }, { m with commands := m.commands ++ [MixerCmd.stop] })

/-- One event of an interleaved execution: a worker poll iteration (with the
sampled `get_busy()` value) or an external method call. -/
inductive MPEvent where
  | poll (busy : Bool)
  | callPause
  | callResume
  | callStop
deriving DecidableEq

/-- Combined state of the player object, the mixer, and the worker loop. -/
structure MPState where
  player : MusicPlayer
  mixer : Mixer
  loop_running : Bool
deriving DecidableEq

/-- Small-step semantics of the interleaving: a poll embeds one iteration of
the `while pygame.mixer.music.get_busy() and not self.stopped` loop of
`MusicPlayer.run` (issue `pause()` or `unpause()` per the `paused` flag, or
exit the loop when the condition fails); the call events embed the
controlling thread invoking `pause`, `resume` or `stop`. -/
def mp_step (s : MPState) (e : MPEvent) : MPState :=
  match e with
  | MPEvent.poll busy =>
    if s.loop_running then
      if busy && !s.player.stopped then
        { s with mixer := { commands := s.mixer.commands
            ++ [if s.player.paused then MixerCmd.pause else MixerCmd.unpause] } }
      else { s with loop_running := false }
    else s
  | MPEvent.callPause => { s with player := s.player.pause }
  | MPEvent.callResume => { s with player := s.player.resume }
  | MPEvent.callStop =>
    { s with player := (s.player.stop s.mixer).1, mixer := (s.player.stop s.mixer).2 }

/-- An interleaved execution: fold `mp_step` over the event trace. -/
def mp_run (s : MPState) (events : List MPEvent) : MPState :=
  events.foldl mp_step s

/-- A sample music file path, used by concrete witnesses. -/
def sample_path : String := "music.mp3"

lemma squared_sum_nil : squared_sum [] = 0 := rfl

lemma squared_sum_cons (b : ℕ) (l : List ℕ) :
    squared_sum (b :: l) = b ^ 2 + squared_sum l := by
  simp [squared_sum]

lemma squared_sum_replicate_zero (n : ℕ) :
    squared_sum (List.replicate n 0) = 0 := by
  simp [squared_sum]

lemma squared_sum_eq_zero_iff (l : List ℕ) :
    squared_sum l = 0 ↔ ∀ b ∈ l, b = 0 := by
  simp [squared_sum, List.sum_eq_zero_iff]

/-- C10: `_calculate_rms` divides by `len(data)` without a guard: the empty
chunk raises `ZeroDivisionError`, and every non-empty chunk produces a
value. -/
theorem rms_empty_chunk_divides_by_zero :
    calculate_rms_sq [] = none ∧
      ∀ data : List ℕ, data ≠ [] → ∃ q, calculate_rms_sq data = some q := by
  constructor
  · rfl
  · intro data hne
    refine ⟨(squared_sum data : ℚ) / (data.length : ℚ), ?_⟩
    simp [calculate_rms_sq, List.length_eq_zero, hne]

/-- Closed witness for `rms_empty_chunk_divides_by_zero` at the chunk
`[3, 4]`. -/
theorem rms_empty_chunk_divides_by_zero_witness :
    ∃ q, calculate_rms_sq [3, 4] = some q :=
  rms_empty_chunk_divides_by_zero.2 [3, 4] (by decide)

/-- C9 counterexample: the chunk `1 :: List.replicate 10001 0` (10002 bytes,
a single byte of value 1, a length reachable with `chunk_size = 5001` and one
16-bit mono channel) is classified as silent under the default threshold
`0.01` — its rms is `sqrt (1 / 10002) < 1 / 100` — yet not all of its bytes
are zero.  This refutes the claim that, at the default threshold, a chunk is
silent iff all its bytes are zero. -/
theorem rms_silence_counterexample :
    calculate_rms_sq (1 :: List.replicate 10001 0) = some (1 / 10002) ∧
      (1 / 10002 : ℚ) < (1 / 100 : ℚ) ^ 2 ∧
      (1 : ℕ) ∈ (1 :: List.replicate 10001 0 : List ℕ) ∧ (1 : ℕ) ≠ 0 := by
  refine ⟨?_, by norm_num, List.mem_cons_self 1 _, by decide⟩
  have hsum : squared_sum (1 :: List.replicate 10001 0) = 1 := by
    rw [squared_sum_cons, squared_sum_replicate_zero]
    norm_num
  have hlen : (1 :: List.replicate 10001 0 : List ℕ).length = 10002 := by
    rw [List.length_cons, List.length_replicate]
  simp only [calculate_rms_sq, hsum, hlen]
  norm_num

/-- C9 amended: for every non-empty chunk, the rms (embedded through its
square `q`) is non-negative and zero iff every byte of the chunk is zero;
under the default threshold `0.01` the chunk is classified as silent iff
`squared_sum * 10000 < length`, and hence, for chunks of at most 10000 bytes
(which includes the default configuration's 2048-byte chunks), iff all bytes
are zero.  Longer chunks can be silent with non-zero bytes
(`rms_silence_counterexample`). -/
theorem rms_silence_amended (data : List ℕ) (hne : data ≠ []) :
    ∃ q, calculate_rms_sq data = some q ∧
      0 ≤ q ∧
      (q = 0 ↔ ∀ b ∈ data, b = 0) ∧
      (q < (1 / 100 : ℚ) ^ 2 ↔ (squared_sum data : ℚ) * 10000 < (data.length : ℚ)) ∧
      (data.length ≤ 10000 → (q < (1 / 100 : ℚ) ^ 2 ↔ ∀ b ∈ data, b = 0)) := by
  have hlen0 : data.length ≠ 0 := by simpa [List.length_eq_zero] using hne
  have hlenQ : (0 : ℚ) < (data.length : ℚ) := by
    exact_mod_cast Nat.pos_of_ne_zero hlen0
  have hpow : ((1 : ℚ) / 100) ^ 2 = 1 / 10000 := by norm_num
  have hiff : (squared_sum data : ℚ) / (data.length : ℚ) < (1 / 100 : ℚ) ^ 2 ↔
      (squared_sum data : ℚ) * 10000 < (data.length : ℚ) := by
    rw [hpow, div_lt_div_iff₀ hlenQ (by norm_num : (0 : ℚ) < 10000)]
    simp
  refine ⟨(squared_sum data : ℚ) / (data.length : ℚ), ?_, ?_, ?_, hiff, ?_⟩
  · simp [calculate_rms_sq, hlen0]
  · positivity
  · rw [div_eq_zero_iff]
    constructor
    · rintro (h | h)
      · rw [← squared_sum_eq_zero_iff]
        exact_mod_cast h
      · exact absurd h (ne_of_gt hlenQ)
    · intro h
      left
      exact_mod_cast (squared_sum_eq_zero_iff data).mpr h
  · intro hsmall
    rw [hiff]
    constructor
    · intro h
      have hlen10 : (data.length : ℚ) ≤ 10000 := by exact_mod_cast hsmall
      have h1 : (squared_sum data : ℚ) < 1 := by linarith
      have h0 : squared_sum data = 0 := by
        exact Nat.lt_one_iff.mp (by exact_mod_cast h1)
      exact (squared_sum_eq_zero_iff data).mp h0
    · intro h
      have h0 : squared_sum data = 0 := (squared_sum_eq_zero_iff data).mpr h
      rw [h0]
      simpa using hlenQ

/-- Closed witness for `rms_silence_amended` at the all-zero chunk `[0, 0]`. -/
theorem rms_silence_amended_witness :
    ∃ q, calculate_rms_sq [0, 0] = some q ∧
      0 ≤ q ∧
      (q = 0 ↔ ∀ b ∈ ([0, 0] : List ℕ), b = 0) ∧
      (q < (1 / 100 : ℚ) ^ 2 ↔
        (squared_sum [0, 0] : ℚ) * 10000 < (([0, 0] : List ℕ).length : ℚ)) ∧
      (([0, 0] : List ℕ).length ≤ 10000 →
        (q < (1 / 100 : ℚ) ^ 2 ↔ ∀ b ∈ ([0, 0] : List ℕ), b = 0)) :=
  rms_silence_amended [0, 0] (by decide)


/-- C6: `image_difference` applied to an image identical to the stored last
frame returns 0, and applied to an image every pixel of which differs from
the stored frame by the maximum intensity 255 returns `255 * (number of
pixels)`, the maximum possible pixel-wise absolute-difference sum. -/
theorem image_difference_identical_and_maximal :
    (∀ (a : List ℕ) (t : Option ℚ) (e : List String),
      (WebcamImageSender.mk (some a) t e).image_difference a = 0) ∧
    (∀ (img last : List ℕ) (t : Option ℚ) (e : List String),
      List.Forall₂ (fun p q => max p q - min p q = 255) img last →
      (WebcamImageSender.mk (some last) t e).image_difference img
        = 255 * img.length) := by
  constructor
  · intro a t e
    simp only [WebcamImageSender.image_difference]
    induction a with
    | nil => rfl
    | cons x xs ih => simp [List.zipWith, ih]
  · intro img last t e h
    simp only [WebcamImageSender.image_difference]
    induction h with
    | nil => rfl
    | cons hpq hrest ih =>
      simp only [List.zipWith, List.sum_cons, List.length_cons, ih, hpq]
      ring

/-- Closed witness for `image_difference_identical_and_maximal`: the
identical image `[5, 7]` gives 0, and `[0, 255]` against stored `[255, 0]`
gives `255 * 2`. -/
theorem image_difference_identical_and_maximal_witness :
    (WebcamImageSender.mk (some [5, 7]) none []).image_difference [5, 7] = 0 ∧
      (WebcamImageSender.mk (some [255, 0]) none []).image_difference [0, 255]
        = 255 * 2 :=
  ⟨image_difference_identical_and_maximal.1 [5, 7] none [],
    image_difference_identical_and_maximal.2 [0, 255] [255, 0] none []
      (List.Forall₂.cons (by decide) (List.Forall₂.cons (by decide) List.Forall₂.nil))⟩

lemma capture_step_emitted (cvt jpg : List ℕ → List ℕ) (b64 : List ℕ → String)
    (w : WebcamImageSender) (frame : List ℕ) (t : ℚ) :
    (capture_step cvt jpg b64 w frame t).emitted
      = w.emitted ++ [b64 (jpg frame)] := by
  by_cases h : w.last_image = none ∨ w.image_difference (cvt frame) > 2 <;>
    simp [capture_step, h]

lemma capture_run_emitted (cvt jpg : List ℕ → List ℕ) (b64 : List ℕ → String)
    (w : WebcamImageSender) (inputs : List (List ℕ × ℚ)) :
    (capture_run cvt jpg b64 w inputs).emitted
      = w.emitted ++ inputs.map fun p => b64 (jpg p.1) := by
  induction inputs generalizing w with
  | nil => simp [capture_run]
  | cons hd tl ih =>
    obtain ⟨frame, t⟩ := hd
    rw [capture_run, ih, capture_step_emitted]
    simp

/-- C3: over any trace of frames read while running, the webcam worker emits
exactly one `"image"` event per frame read, carrying the base64-encoded JPEG
of that frame, independently of the stable-frame difference comparison (the
equation holds for every starting state, hence for every outcome of the
comparison). -/
theorem webcam_emits_one_event_per_frame (cvt jpg : List ℕ → List ℕ)
    (b64 : List ℕ → String) (w : WebcamImageSender)
    (inputs : List (List ℕ × ℚ)) :
    (capture_run cvt jpg b64 w inputs).emitted
        = w.emitted ++ inputs.map (fun p => b64 (jpg p.1)) ∧
      (capture_run cvt jpg b64 w inputs).emitted.length
        = w.emitted.length + inputs.length := by
  refine ⟨capture_run_emitted cvt jpg b64 w inputs, ?_⟩
  rw [capture_run_emitted]
  simp

/-- C7: in every iteration of the webcam worker, the stored stable frame is
replaced by the current grayscale frame exactly when no stable frame exists
yet or the pixel-wise absolute-difference sum exceeds the constant threshold
2 (and the last-change timestamp becomes the current time); otherwise both
are unchanged. -/
theorem stable_frame_replaced_iff (cvt jpg : List ℕ → List ℕ)
    (b64 : List ℕ → String) (w : WebcamImageSender) (frame : List ℕ) (t : ℚ) :
    (capture_step cvt jpg b64 w frame t).last_image
        = (if w.last_image = none ∨ w.image_difference (cvt frame) > 2
            then some (cvt frame) else w.last_image) ∧
      (capture_step cvt jpg b64 w frame t).last_change_time
        = (if w.last_image = none ∨ w.image_difference (cvt frame) > 2
            then some t else w.last_change_time) := by
  by_cases h : w.last_image = none ∨ w.image_difference (cvt frame) > 2 <;>
    simp [capture_step, h]


/-- C4: calling `stop_recording` a first time on a recorder whose stream is
open stops and closes the stream and writes the WAV file with the buffered
chunks; calling it a second time on the resulting state raises on the
stream teardown (the method is not idempotent-safe). -/
theorem stop_recording_not_idempotent (r : AudioRecorder)
    (hopen : r.stream_open = true) :
    ∃ r1, r.stop_recording = Except.ok r1 ∧
      r1.is_recording = false ∧
      r1.stream_open = false ∧
      r1.audio_frames = r.audio_frames ∧
      r1.wav_writes = r.wav_writes ++ [r.audio_frames.flatten] ∧
      r1.stop_recording = Except.error "Stream closed" := by
  refine ⟨{ r with is_recording := false, stream_open := false, wav_writes := r.wav_writes ++ [r.audio_frames.flatten] }, ?_, rfl, rfl, rfl, rfl, ?_⟩
  · simp [AudioRecorder.stop_recording, hopen]
  · simp [AudioRecorder.stop_recording]

/-- Closed witness for `stop_recording_not_idempotent` at a concrete freshly
recording state holding one chunk. -/
theorem stop_recording_not_idempotent_witness :
    ∃ r1, (AudioRecorder.mk (1 / 100) 2 true [[0, 0]] 0 true []).stop_recording
        = Except.ok r1 ∧
      r1.is_recording = false ∧
      r1.stream_open = false ∧
      r1.audio_frames = [[0, 0]] ∧
      r1.wav_writes = [] ++ [([[0, 0]] : List (List ℕ)).flatten] ∧
      r1.stop_recording = Except.error "Stream closed" :=
  stop_recording_not_idempotent (AudioRecorder.mk (1 / 100) 2 true [[0, 0]] 0 true []) rfl

/-- C2: over any trace all of whose chunks have rms at or above the silence
threshold, the `_record` worker never invokes `stop_recording` on its own:
it stays recording, the stream stays untouched, no WAV file is written, and
every chunk read is buffered in order. -/
theorem loud_chunks_never_self_stop (r : AudioRecorder)
    (inputs : List (List ℕ × ℚ)) (hrec : r.is_recording = true)
    (hloud : ∀ p ∈ inputs, ∃ q, calculate_rms_sq p.1 = some q ∧
      ¬ q < r.silence_threshold ^ 2) :
    ∃ r1, r.record_run inputs = Except.ok r1 ∧
      r1.is_recording = true ∧
      r1.stream_open = r.stream_open ∧
      r1.wav_writes = r.wav_writes ∧
      r1.audio_frames = r.audio_frames ++ inputs.map Prod.fst := by
  induction inputs generalizing r with
  | nil => exact ⟨r, rfl, hrec, rfl, rfl, by simp⟩
  | cons hd tl ih =>
    obtain ⟨data, t⟩ := hd
    obtain ⟨thr, dur, irec, af, lst, so, ww⟩ := r
    dsimp only at hrec
    subst hrec
    obtain ⟨q, hq, hnlt⟩ := hloud (data, t) (List.mem_cons_self _ _)
    have hstep : (AudioRecorder.mk thr dur true af lst so ww).record_step data t
        = Except.ok (AudioRecorder.mk thr dur true (af ++ [data]) t so ww) := by
      simp [AudioRecorder.record_step, hq, hnlt]
    obtain ⟨r1, hrun, hr1, hso, hww, haf⟩ :=
      ih (AudioRecorder.mk thr dur true (af ++ [data]) t so ww) rfl
        (fun p hp => hloud p (List.mem_cons_of_mem _ hp))
    refine ⟨r1, ?_, hr1, hso, hww, ?_⟩
    · simpa [AudioRecorder.record_run, hstep] using hrun
    · simp only [haf]
      simp

/-- Closed witness for `loud_chunks_never_self_stop`: one loud chunk
`[1, 1]` read at time 1 leaves the recorder running with the chunk
buffered. -/
theorem loud_chunks_never_self_stop_witness :
    ∃ r1, (AudioRecorder.mk (1 / 100) 2 true [] 0 true []).record_run
        [([1, 1], 1)] = Except.ok r1 ∧
      r1.is_recording = true ∧
      r1.stream_open = (AudioRecorder.mk (1 / 100) 2 true [] 0 true []).stream_open ∧
      r1.wav_writes = (AudioRecorder.mk (1 / 100) 2 true [] 0 true []).wav_writes ∧
      r1.audio_frames = (AudioRecorder.mk (1 / 100) 2 true [] 0 true []).audio_frames
        ++ ([([1, 1], (1 : ℚ))]).map Prod.fst :=
  loud_chunks_never_self_stop _ _ rfl (by
    intro p hp
    simp only [List.mem_singleton] at hp
    subst hp
    exact ⟨1, by norm_num [calculate_rms_sq, squared_sum], by norm_num⟩)

lemma record_run_of_not_recording (r : AudioRecorder)
    (inputs : List (List ℕ × ℚ)) (h : r.is_recording = false) :
    r.record_run inputs = Except.ok r := by
  cases inputs with
  | nil => rfl
  | cons hd tl =>
    obtain ⟨data, t⟩ := hd
    simp [AudioRecorder.record_run, h]

/-- C1: starting from a recording state with an open stream and no WAV file
written, over any trace all of whose chunks have rms below the silence
threshold and which contains a read whose time is at least
`silence_duration` past `last_sound_time` (the time of the last
above-threshold energy), the `_record` worker calls `stop_recording` itself
and exactly one WAV file is produced, containing precisely the buffered
chunks — a prefix of the trace — concatenated in read order. -/
theorem silence_self_stop (r : AudioRecorder) (inputs : List (List ℕ × ℚ))
    (hrec : r.is_recording = true) (hopen : r.stream_open = true)
    (hwav : r.wav_writes = [])
    (hsilent : ∀ p ∈ inputs, ∃ q, calculate_rms_sq p.1 = some q ∧
      q < r.silence_threshold ^ 2)
    (hlong : ∃ p ∈ inputs, r.silence_duration ≤ p.2 - r.last_sound_time) :
    ∃ r1, r.record_run inputs = Except.ok r1 ∧
      r1.is_recording = false ∧
      r1.wav_writes = [r1.audio_frames.flatten] ∧
      ∃ k, r1.audio_frames = r.audio_frames ++ (inputs.map Prod.fst).take k := by
  induction inputs generalizing r with
  | nil => exact absurd hlong (by simp)
  | cons hd tl ih =>
    obtain ⟨data, t⟩ := hd
    obtain ⟨thr, dur, irec, af, lst, so, ww⟩ := r
    dsimp only at hrec hopen hwav hlong hsilent
    subst hrec
    subst hopen
    subst hwav
    obtain ⟨q, hq, hlt⟩ := hsilent (data, t) (List.mem_cons_self _ _)
    by_cases hdur : dur ≤ t - lst
    · have hstep : (AudioRecorder.mk thr dur true af lst true []).record_step data t
          = Except.ok (AudioRecorder.mk thr dur false (af ++ [data]) lst false [(af ++ [data]).flatten]) := by
        simp [AudioRecorder.record_step, AudioRecorder.stop_recording, hq, hlt, hdur]
      refine ⟨AudioRecorder.mk thr dur false (af ++ [data]) lst false [(af ++ [data]).flatten], ?_, rfl, rfl, 1, by simp⟩
      simp only [AudioRecorder.record_run, if_true, hstep]
      exact record_run_of_not_recording _ tl rfl
    · have hstep : (AudioRecorder.mk thr dur true af lst true []).record_step data t
          = Except.ok (AudioRecorder.mk thr dur true (af ++ [data]) lst true []) := by
        simp [AudioRecorder.record_step, hq, hlt, hdur]
      have hlong2 : ∃ p ∈ tl, dur ≤ p.2 - lst := by
        obtain ⟨p, hp, hpd⟩ := hlong
        rcases List.mem_cons.mp hp with hph | hpt
        · rw [hph] at hpd
          exact absurd hpd hdur
        · exact ⟨p, hpt, hpd⟩
      obtain ⟨r1, hrun, hr1, hww1, k, haf⟩ :=
        ih (AudioRecorder.mk thr dur true (af ++ [data]) lst true []) rfl rfl rfl
          (fun p hp => hsilent p (List.mem_cons_of_mem _ hp)) hlong2
      refine ⟨r1, ?_, hr1, hww1, k + 1, ?_⟩
      · simpa [AudioRecorder.record_run, hstep] using hrun
      · rw [haf]
        simp

/-- Closed witness for `silence_self_stop`: one silent chunk `[0, 0]` read
at time 5, with `last_sound_time = 0` and `silence_duration = 2`, makes the
worker self-stop and write the single WAV file `[0, 0]`. -/
theorem silence_self_stop_witness :
    ∃ r1, (AudioRecorder.mk (1 / 100) 2 true [] 0 true []).record_run
        [([0, 0], 5)] = Except.ok r1 ∧
      r1.is_recording = false ∧
      r1.wav_writes = [r1.audio_frames.flatten] ∧
      ∃ k, r1.audio_frames = (AudioRecorder.mk (1 / 100) 2 true [] 0 true []).audio_frames
        ++ (([([0, 0], (5 : ℚ))]).map Prod.fst).take k :=
  silence_self_stop _ _ rfl rfl rfl
    (by
      intro p hp
      simp only [List.mem_singleton] at hp
      subst hp
      exact ⟨0, by norm_num [calculate_rms_sq, squared_sum], by norm_num⟩)
    ⟨([0, 0], 5), List.mem_singleton.mpr rfl, by norm_num⟩


lemma mp_run_cons (s : MPState) (e : MPEvent) (es : List MPEvent) :
    mp_run s (e :: es) = mp_run (mp_step s e) es := rfl

lemma mp_run_stopped_invariant (s : MPState) (events : List MPEvent)
    (h : s.player.stopped = true) :
    (mp_run s events).player.stopped = true ∧
      ∃ tail, (mp_run s events).mixer.commands = s.mixer.commands ++ tail ∧
        ∀ c ∈ tail, c = MixerCmd.stop := by
  induction events generalizing s with
  | nil => exact ⟨h, [], by simp [mp_run], by simp⟩
  | cons e es ih =>
    have hstep : (mp_step s e).player.stopped = true ∧
        ((mp_step s e).mixer.commands = s.mixer.commands ∨
          (mp_step s e).mixer.commands = s.mixer.commands ++ [MixerCmd.stop]) := by
      cases e with
      | poll b =>
        by_cases hl : s.loop_running = true <;>
          simp [mp_step, hl, h]
      | callPause => simp [mp_step, MusicPlayer.pause, h]
      | callResume => simp [mp_step, MusicPlayer.resume, h]
      | callStop => simp [mp_step, MusicPlayer.stop]
    obtain ⟨h1, hcmd⟩ := hstep
    obtain ⟨h2, tail, htail, hstops⟩ := ih (mp_step s e) h1
    rw [mp_run_cons]
    refine ⟨h2, ?_⟩
    rcases hcmd with hc | hc
    · exact ⟨tail, by rw [htail, hc], hstops⟩
    · refine ⟨MixerCmd.stop :: tail, ?_, ?_⟩
      · rw [htail, hc]
        simp
      · intro c hcmem
        rcases List.mem_cons.mp hcmem with hc1 | hc2
        · exact hc1
        · exact hstops c hc2

/-- C5: `stop()` sets the `stopped` flag and immediately appends a stop
command to the mixer, independent of the loop; the flag is terminal: the
worker loop exits at its very next poll iteration without issuing any
further mixer command, and over every subsequent trace of events —
including any sequence of `pause()`/`resume()` calls — the flag stays set
and the only commands ever added to the mixer are further stops (playback
cannot resume). -/
theorem music_stop_terminal (s : MPState) :
    (mp_step s MPEvent.callStop).player.stopped = true ∧
      (mp_step s MPEvent.callStop).mixer.commands
        = s.mixer.commands ++ [MixerCmd.stop] ∧
      (∀ b, (mp_step (mp_step s MPEvent.callStop) (MPEvent.poll b)).loop_running = false ∧
        (mp_step (mp_step s MPEvent.callStop) (MPEvent.poll b)).mixer
          = (mp_step s MPEvent.callStop).mixer) ∧
      ∀ events, (mp_run (mp_step s MPEvent.callStop) events).player.stopped = true ∧
        ∃ tail, (mp_run (mp_step s MPEvent.callStop) events).mixer.commands
            = s.mixer.commands ++ MixerCmd.stop :: tail ∧
          ∀ c ∈ tail, c = MixerCmd.stop := by
  refine ⟨rfl, rfl, ?_, ?_⟩
  · intro b
    by_cases hl : s.loop_running = true <;>
      simp [mp_step, MusicPlayer.stop, hl]
  · intro events
    obtain ⟨h2, tail, htail, hstops⟩ :=
      mp_run_stopped_invariant (mp_step s MPEvent.callStop) events rfl
    refine ⟨h2, tail, ?_, hstops⟩
    rw [htail]
    simp [mp_step, MusicPlayer.stop]

/-- Closed witness for `music_stop_terminal`: after `stop()` on a concrete
playing state, a `pause()`, a `resume()` and a busy poll leave the flag set
and add no command beyond the stop. -/
theorem music_stop_terminal_witness :
    (mp_run (mp_step (MPState.mk (MusicPlayer.mk sample_path false false)
          (Mixer.mk [MixerCmd.load sample_path, MixerCmd.play]) true) MPEvent.callStop)
        [MPEvent.callPause, MPEvent.callResume, MPEvent.poll true]).player.stopped = true ∧
      ∃ tail, (mp_run (mp_step (MPState.mk (MusicPlayer.mk sample_path false false)
            (Mixer.mk [MixerCmd.load sample_path, MixerCmd.play]) true) MPEvent.callStop)
          [MPEvent.callPause, MPEvent.callResume, MPEvent.poll true]).mixer.commands
          = (MPState.mk (MusicPlayer.mk sample_path false false)
              (Mixer.mk [MixerCmd.load sample_path, MixerCmd.play]) true).mixer.commands
            ++ MixerCmd.stop :: tail ∧
        ∀ c ∈ tail, c = MixerCmd.stop :=
  ⟨((music_stop_terminal _).2.2.2 [MPEvent.callPause, MPEvent.callResume, MPEvent.poll true]).1,
    ((music_stop_terminal _).2.2.2 [MPEvent.callPause, MPEvent.callResume, MPEvent.poll true]).2⟩

/-- C8: `pause()` and `resume()` modify only the `paused` flag — they leave
`file_path` and `stopped` unchanged and issue no mixer command (the mixer
and the worker-loop state are untouched); the mixer only receives a pause or
unpause command at the worker's next poll iteration, chosen by the `paused`
flag at that moment. -/
theorem pause_resume_flag_only (s : MPState) :
    (mp_step s MPEvent.callPause).player.paused = true ∧
      (mp_step s MPEvent.callPause).player.file_path = s.player.file_path ∧
      (mp_step s MPEvent.callPause).player.stopped = s.player.stopped ∧
      (mp_step s MPEvent.callPause).mixer = s.mixer ∧
      (mp_step s MPEvent.callPause).loop_running = s.loop_running ∧
      (mp_step s MPEvent.callResume).player.paused = false ∧
      (mp_step s MPEvent.callResume).player.file_path = s.player.file_path ∧
      (mp_step s MPEvent.callResume).player.stopped = s.player.stopped ∧
      (mp_step s MPEvent.callResume).mixer = s.mixer ∧
      (mp_step s MPEvent.callResume).loop_running = s.loop_running ∧
      ∀ b, b = true → s.loop_running = true → s.player.stopped = false →
        (mp_step s (MPEvent.poll b)).mixer.commands = s.mixer.commands
          ++ [if s.player.paused then MixerCmd.pause else MixerCmd.unpause] := by
  refine ⟨rfl, rfl, rfl, rfl, rfl, rfl, rfl, rfl, rfl, rfl, ?_⟩
  intro b hb hl hs
  subst hb
  simp [mp_step, hl, hs]

/-- Closed witness for `pause_resume_flag_only` at a concrete paused playing
state with a busy poll. -/
theorem pause_resume_flag_only_witness :
    (mp_step (MPState.mk (MusicPlayer.mk sample_path true false)
        (Mixer.mk [MixerCmd.load sample_path, MixerCmd.play]) true)
      (MPEvent.poll true)).mixer.commands
      = (MPState.mk (MusicPlayer.mk sample_path true false)
          (Mixer.mk [MixerCmd.load sample_path, MixerCmd.play]) true).mixer.commands
        ++ [if (MusicPlayer.mk sample_path true false).paused
            then MixerCmd.pause else MixerCmd.unpause] :=
  (pause_resume_flag_only (MPState.mk (MusicPlayer.mk sample_path true false)
      (Mixer.mk [MixerCmd.load sample_path, MixerCmd.play]) true)).2.2.2.2.2.2.2.2.2.2
    true rfl rfl rfl


end LollmsMedia
